import Mathlib

set_option maxRecDepth 10000

/-!
Shallow embedding of the snapshot span management and navigation engine of
`src/tab.ts` (class `Tab`): span splitting, cursor reconciliation on
snapshot capture, search, line navigation and the modal-state queue.

Text is modelled as `List Char`.  JavaScript string helpers used by the
source (`split('\n')`, `trimEnd()`, `trim()`, `substring`, `.length`,
template literals) are embedded as structural functions on character
lists; JavaScript numbers holding possibly-negative values (`spanSize`,
span indices, line numbers) are modelled as `Int`, counters that are
provably non-negative as `Nat`.
-/

namespace TabModel

/-- ASCII fragment of the JavaScript whitespace class recognised by
`trim`/`trimEnd`. -/
def isWS (c : Char) : Bool := c == ' ' || c == '\t' || c == '\n' || c == '\r'

/-- JavaScript `s.trimEnd()`: drop trailing whitespace. -/
def trimEnd (s : List Char) : List Char := (s.reverse.dropWhile isWS).reverse

/-- JavaScript `s.trimStart()`: drop leading whitespace. -/
def trimStart (s : List Char) : List Char := s.dropWhile isWS

/-- JavaScript `s.trim()`: drop whitespace on both ends. -/
def trimChars (s : List Char) : List Char := trimStart (trimEnd s)

/-- Accumulator-based worker for `splitLines` (JavaScript
`snapshot.split('\n')`): `cur` holds the reversed characters of the line
being read. -/
def splitLinesAux : List Char → List Char → List (List Char)
  | cur, [] => [cur.reverse]
  | cur, c :: cs =>
    if c == '\n' then cur.reverse :: splitLinesAux [] cs
    else splitLinesAux (c :: cur) cs

/-- JavaScript `snapshot.split('\n')`: always at least one (possibly empty)
line; no separator removal beyond the newline itself. -/
def splitLines (s : List Char) : List (List Char) := splitLinesAux [] s

/-- The truncation marker appended by `_splitSnapshotIntoSpans` to an
over-long line: `... [line truncated, originally with N chars]` plus the
line separator. -/
def truncMarker (n : Nat) : List Char :=
  "... [line truncated, originally with ".data ++ Nat.toDigits 10 n ++ " chars]".data ++ ['\n']

/-- One loop iteration's `lineToAdd` in `_splitSnapshotIntoSpans`
(`src/tab.ts` lines 161-168): the line plus newline, truncated to
`spanSize - 50` characters plus a marker when it alone overflows the
budget. -/
def lineToAdd (spanSize : Int) (line : List Char) : List Char :=
  if ((line ++ ['\n']).length : Int) > spanSize then
    line.take (spanSize - 50).toNat ++ truncMarker line.length
  else line ++ ['\n']

/-- Entry of `_spanToGlobalLineMap`: 1-based inclusive global line range of
a span. -/
structure SpanRange where
  startLine : Nat
  endLine : Nat
deriving DecidableEq, Repr

/-- Result of `_splitSnapshotIntoSpans`: the span texts together with the
`_spanToGlobalLineMap` it rebuilds. -/
structure SplitResult where
  spans : List (List Char)
  lineMap : List SpanRange
deriving DecidableEq, Repr

/-- The accumulation loop of `_splitSnapshotIntoSpans` (`src/tab.ts`
lines 159-195), including the final flush that drops a pending span whose
`trim()` is empty.  `lineCount` is `lines.length` of the full split,
`i` the index of the next line, `spanStartLineIndex` the 0-based index of
the first line of the pending span. -/
def splitLoop (spanSize : Int) (lineCount : Nat) :
    List (List Char) → Nat → List Char → Nat → Nat →
    List (List Char) → List SpanRange → List (List Char) × List SpanRange
  | [], _i, currentSpan, _currentLength, spanStartLineIndex, spans, lineMap =>
    if 0 < (trimChars currentSpan).length then
      (spans ++ [trimEnd currentSpan], lineMap ++ [⟨spanStartLineIndex + 1, lineCount⟩])
    else
      (spans, lineMap)
  | line :: rest, i, currentSpan, currentLength, spanStartLineIndex, spans, lineMap =>
    let l := lineToAdd spanSize line
    if ((currentLength : Int) + l.length > spanSize) ∧ 0 < currentSpan.length then
      splitLoop spanSize lineCount rest (i + 1) l l.length i
        (spans ++ [trimEnd currentSpan]) (lineMap ++ [⟨spanStartLineIndex + 1, i⟩])
    else
      splitLoop spanSize lineCount rest (i + 1) (currentSpan ++ l)
        (currentLength + l.length) spanStartLineIndex spans lineMap

/-- `Tab._splitSnapshotIntoSpans` (`src/tab.ts` lines 139-198), returning
both the spans and the rebuilt `_spanToGlobalLineMap`.  `spanSize = -1`
yields the whole snapshot as a single span; an empty spans list falls back
to one empty span (leaving the map empty, as in the source). -/
def splitSnapshotIntoSpans (spanSize : Int) (snapshot : List Char) : SplitResult :=
  let lines := splitLines snapshot
  if spanSize = -1 then
    ⟨[snapshot], [⟨1, lines.length⟩]⟩
  else
    let r := splitLoop spanSize lines.length lines 0 [] 0 0 [] []
    if 0 < r.1.length then ⟨r.1, r.2⟩ else ⟨[[]], r.2⟩

/-- The snapshot-related mutable fields of class `Tab`. -/
structure TabState where
  fullSnapshot : List Char
  snapshotSpans : List (List Char)
  currentSpanIndex : Int
  snapshotSpanSize : Int
  globalLines : List (List Char)
  spanToGlobalLineMap : List SpanRange
deriving Repr

/-- State of a `Tab` immediately after splitting `text` (fresh capture of a
snapshot, cursor at the first span). -/
def stateAfterSplit (spanSize : Int) (text : List Char) : TabState :=
  let r := splitSnapshotIntoSpans spanSize text
  ⟨text, r.spans, 0, spanSize, splitLines text, r.lineMap⟩

/-- The `onlyCurrentSpanChanged` scan in `captureSnapshot` (`src/tab.ts`
lines 440-447): every index other than the previous cursor holds an
identical span text. -/
def onlyCurrentSpanChanged (newSpans oldSpans : List (List Char)) (cursor : Int) : Bool :=
  (List.range newSpans.length).all fun i =>
    ((i : Int) == cursor) || (newSpans.getD i [] == oldSpans.getD i [])

/-- The snapshot/span/cursor update performed by `captureSnapshot`
(`src/tab.ts` lines 424-463) when a fresh raw snapshot arrives: on a
changed text, re-split and reconcile the cursor, then clamp it from above
to the last span index. -/
def captureSnapshotUpdate (st : TabState) (fullSnapshot : List Char) : TabState :=
  if st.fullSnapshot = fullSnapshot then st
  else
    let previousSpans := st.snapshotSpans
    let previousCurrentSpanIndex := st.currentSpanIndex
    let r := splitSnapshotIntoSpans st.snapshotSpanSize fullSnapshot
    let idx : Int :=
      if previousSpans.length = 0 then 0
      else if r.spans.length = previousSpans.length ∧
          previousCurrentSpanIndex < (r.spans.length : Int) then
        if onlyCurrentSpanChanged r.spans previousSpans previousCurrentSpanIndex then
          previousCurrentSpanIndex
        else 0
      else 0
    { fullSnapshot := fullSnapshot
      snapshotSpans := r.spans
      currentSpanIndex := min idx ((r.spans.length : Int) - 1)
      snapshotSpanSize := st.snapshotSpanSize
      globalLines := splitLines fullSnapshot
      spanToGlobalLineMap := r.lineMap }

/-- Result shape of the span navigation operations. -/
structure NavSpanResult where
  success : Bool
  span : List Char
  spanIndex : Int
  totalSpans : Nat
deriving DecidableEq, Repr

/-- `Tab.navigateToSpan` (`src/tab.ts` lines 220-234): clamp the requested
index into the valid range and move the cursor there; fails only with an
empty span list. -/
def navigateToSpan (st : TabState) (index : Int) : TabState × NavSpanResult :=
  if st.snapshotSpans.length = 0 then
    (st, ⟨false, [], 0, 0⟩)
  else
    let clampedIndex : Int := max 0 (min index ((st.snapshotSpans.length : Int) - 1))
    ({ st with currentSpanIndex := clampedIndex },
      ⟨true, st.snapshotSpans.getD clampedIndex.toNat [], clampedIndex, st.snapshotSpans.length⟩)

/-- `Tab.navigateToFirstSpan`. -/
def navigateToFirstSpan (st : TabState) : TabState × NavSpanResult :=
  navigateToSpan st 0

/-- `Tab.navigateToLastSpan`. -/
def navigateToLastSpan (st : TabState) : TabState × NavSpanResult :=
  navigateToSpan st ((st.snapshotSpans.length : Int) - 1)

/-- `Tab.navigateToNextSpan`. -/
def navigateToNextSpan (st : TabState) : TabState × NavSpanResult :=
  navigateToSpan st (st.currentSpanIndex + 1)

/-- `Tab.navigateToPrevSpan`. -/
def navigateToPrevSpan (st : TabState) : TabState × NavSpanResult :=
  navigateToSpan st (st.currentSpanIndex - 1)

/-- A search match as produced by `searchInSnapshot`. -/
structure SearchMatch where
  spanIndex : Nat
  line : List Char
  inSpanLineNumber : Nat
  globalLineNumber : Nat
deriving DecidableEq, Repr

/-- Abstract model of a compiled JavaScript `RegExp`: `matcher line start`
returns the end position (the new `lastIndex`) of the first match of the
pattern in `line` at a position at or after `start`, or `none`.  `global`
records whether the `g` flag is set (the source compiles with
`flags || 'gi'`, so `g` is on by default). -/
structure JSRegex where
  matcher : List Char → Nat → Option Nat
  global : Bool

/-- JavaScript `regex.test(line)` semantics: a global regex starts the
search at its persistent `lastIndex`, stores the match end back into
`lastIndex` on success and resets it to `0` on failure (also when
`lastIndex` already exceeds the string length); a non-global regex always
searches from `0` and never touches `lastIndex`.  Returns the test result
and the updated `lastIndex`. -/
def regexTest (r : JSRegex) (lastIndex : Nat) (line : List Char) : Bool × Nat :=
  let start := if r.global then lastIndex else 0
  if line.length < start then (false, 0)
  else
    match r.matcher line start with
    | some e => (true, if r.global then e else lastIndex)
    | none => (false, if r.global then 0 else lastIndex)

/-- The inner `lines.forEach` of `searchInSnapshot` (`src/tab.ts` lines
262-273): test each line of one span, threading the regex `lastIndex`,
and append a `SearchMatch` (trimmed line, 1-based in-span number, global
number from the span's recorded range when present) for each hit. -/
def searchLines (r : JSRegex) (spanIndex : Nat) (rangeOpt : Option SpanRange) :
    List (List Char) → Nat → Nat → Bool → List SearchMatch →
    Nat × Bool × List SearchMatch
  | [], lastIndex, _lineIndex, hasMatch, acc => (lastIndex, hasMatch, acc)
  | line :: rest, lastIndex, lineIndex, hasMatch, acc =>
    let t := regexTest r lastIndex line
    if t.1 then
      let globalLineNumber :=
        match rangeOpt with
        | some sr => sr.startLine + lineIndex
        | none => lineIndex + 1
      searchLines r spanIndex rangeOpt rest t.2 (lineIndex + 1) true
        (acc ++ [⟨spanIndex, trimChars line, lineIndex + 1, globalLineNumber⟩])
    else
      searchLines r spanIndex rangeOpt rest t.2 (lineIndex + 1) hasMatch acc

/-- The outer `spans.forEach` of `searchInSnapshot` (`src/tab.ts` lines
257-278): split each span into lines, search them, and record the span
index when it had at least one hit. -/
def searchSpans (r : JSRegex) (lineMap : List SpanRange) :
    List (List Char) → Nat → Nat → List Nat → List SearchMatch →
    List Nat × List SearchMatch
  | [], _spanIndex, _lastIndex, spanIndices, ms => (spanIndices, ms)
  | span :: rest, spanIndex, lastIndex, spanIndices, ms =>
    let res := searchLines r spanIndex (lineMap.get? spanIndex) (splitLines span)
      lastIndex 0 false ms
    searchSpans r lineMap rest (spanIndex + 1) res.1
      (if res.2.1 then spanIndices ++ [spanIndex] else spanIndices) res.2.2

/-- `Tab.searchInSnapshot` (`src/tab.ts` lines 252-281) for an
already-compiled regex model `r`. -/
def searchInSnapshot (r : JSRegex) (st : TabState) : List Nat × List SearchMatch :=
  searchSpans r st.spanToGlobalLineMap st.snapshotSpans 0 0 [] []

/-- A concrete matcher: first occurrence of character `c` at or after
`start`, match end is one past it (models the regex `/c/`). -/
def matchCharFrom (c : Char) (line : List Char) (start : Nat) : Option Nat :=
  match (line.drop start).findIdx? (· == c) with
  | some j => some (start + j + 1)
  | none => none

/-- Decimal rendering of a `Nat`, as JavaScript template literals produce. -/
def natStr (n : Nat) : List Char := (Nat.repr n).data

/-- Decimal rendering of an `Int`, as JavaScript template literals produce. -/
def intStr (i : Int) : List Char := (Int.repr i).data

/-- The span-overlap scan of `navigateToLine` (`src/tab.ts` lines 302-309):
indices of map entries whose 0-based line range intersects the 0-based
context window `[startLine, endLine]`. -/
def involvedSpansFor (lineMap : List SpanRange) (startLine endLine : Nat) : List Nat :=
  (List.range lineMap.length).filter fun k =>
    ((lineMap.getD k ⟨0, 0⟩).startLine : Int) - 1 ≤ (endLine : Int) ∧
    ((lineMap.getD k ⟨0, 0⟩).endLine : Int) - 1 ≥ (startLine : Int)

/-- The `spanInfo` string of `navigateToLine` (`src/tab.ts` lines 320-322). -/
def spanInfoFor (involvedSpans : List Nat) : List Char :=
  if 0 < involvedSpans.length then
    "Lines from spans: ".data ++
      List.intercalate ", ".data (involvedSpans.map fun s => natStr (s + 1))
  else
    "Span information unavailable".data

/-- One rendered context line of `navigateToLine` (`src/tab.ts` lines
313-318): marker, 1-based line number, and the raw line. -/
def renderLine (lines : List (List Char)) (targetLineIndex i : Nat) : List Char :=
  (if i = targetLineIndex then ">>> ".data else "    ".data) ++
    natStr (i + 1) ++ ": ".data ++ lines.getD i []

/-- Result shape of `navigateToLine`. -/
structure NavLineResult where
  success : Bool
  content : List Char
  lineInfo : List Char
deriving DecidableEq, Repr

/-- `Tab.navigateToLine` (`src/tab.ts` lines 283-329). -/
def navigateToLine (st : TabState) (globalLineNumber : Int) (contextLines : Nat := 3) :
    NavLineResult :=
  if st.globalLines.length = 0 then
    ⟨false, [], "No snapshot available. Take a snapshot first.".data⟩
  else if globalLineNumber - 1 < 0 ∨ (st.globalLines.length : Int) ≤ globalLineNumber - 1 then
    ⟨false, [],
      "Line ".data ++ intStr globalLineNumber ++ " is out of range. Snapshot has ".data ++
        natStr st.globalLines.length ++ " lines.".data⟩
  else
    let targetLineIndex := (globalLineNumber - 1).toNat
    let startLine := targetLineIndex - contextLines
    let endLine := min (st.globalLines.length - 1) (targetLineIndex + contextLines)
    let involvedSpans := involvedSpansFor st.spanToGlobalLineMap startLine endLine
    let contextContent := (List.range' startLine (endLine + 1 - startLine)).map
      (renderLine st.globalLines targetLineIndex)
    ⟨true, List.intercalate ['\n'] contextContent,
      "Showing lines ".data ++ natStr (startLine + 1) ++ "-".data ++ natStr (endLine + 1) ++
        " (±".data ++ natStr contextLines ++ " context around line ".data ++
        intStr globalLineNumber ++ ")".data ++ ['\n'] ++ spanInfoFor involvedSpans⟩

/-- `Tab.setModalState` (`src/tab.ts` lines 85-88): push the new modal
state at the end of the queue.  Queue entries are compared by JavaScript
object identity, modelled by a type with decidable equality. -/
def setModalState {M : Type} (q : List M) (m : M) : List M := q ++ [m]

/-- `Tab.clearModalState` (`src/tab.ts` lines 90-92): keep exactly the
entries that are not the given one. -/
def clearModalState {M : Type} [DecidableEq M] (q : List M) (m : M) : List M :=
  q.filter (fun x => x ≠ m)

/-- Outcome of the asynchronous part of `_raceAgainstModalStates`: which of
the two racing futures resolves first when no modal state is pending at
call time. -/
inductive RaceOutcome (M : Type) where
  | actionFirst : RaceOutcome M
  | modalFirst : M → RaceOutcome M

/-- `Tab._raceAgainstModalStates` (`src/tab.ts` lines 501-516), with the
`Promise.race` resolution order abstracted into `outcome`: a pending modal
state is returned immediately (the synchronous guard of lines 502-503);
otherwise the first-resolved future decides the result. -/
def raceAgainstModalStates {M : Type} (q : List M) (outcome : RaceOutcome M) : Option M :=
  if 0 < q.length then q.head?
  else
    match outcome with
    | .actionFirst => none
    | .modalFirst m => some m

/-- Concatenation of the budget-transformed lines of one span, as
accumulated by the split loop (each line contributes `lineToAdd`). -/
def joinLines (spanSize : Int) : List (List Char) → List Char
  | [] => []
  | l :: ls => lineToAdd spanSize l ++ joinLines spanSize ls

/-- The half-open slice `xs[a..b)` of a list, used to relate a span to the
global line array. -/
def slice {α : Type} (xs : List α) (a b : Nat) : List α := (xs.take b).drop a

/-- Map entry at index `k` (default `⟨0, 0⟩` out of range). -/
def mget (m : List SpanRange) (k : Nat) : SpanRange := m.getD k ⟨0, 0⟩

/-- Span text at index `k` (default `[]` out of range). -/
def sget (s : List (List Char)) (k : Nat) : List Char := s.getD k []

/-- Last recorded `endLine` of a line map (`0` when the map is empty). -/
def lastEnd (m : List SpanRange) : Nat := (mget m (m.length - 1)).endLine

/-- Statement of claim C1's partition property, following the claim's
words: the recorded ranges are non-empty, start at line 1, are contiguous,
and the last one ends at the total line count. -/
def claimC1Partition (m : List SpanRange) (lineCount : Nat) : Prop :=
  m ≠ [] ∧ (m.headD ⟨0, 0⟩).startLine = 1 ∧
    (∀ k, k + 1 < m.length → (m.getD (k + 1) ⟨0, 0⟩).startLine = (m.getD k ⟨0, 0⟩).endLine + 1) ∧
    lastEnd m = lineCount

/-- Rendering of the context window claimed by C6, following the claim's
words: one line per 1-based line number in `[a, b]`, the target line `g`
marked, each annotated with its global number. -/
def specRenderWindow (lines : List (List Char)) (a b g : Nat) : List Char :=
  List.intercalate ['\n'] ((List.range' a (b + 1 - a)).map fun n =>
    (if n = g then ">>> ".data else "    ".data) ++ natStr n ++ ": ".data ++
      lines.getD (n - 1) [])

/-- A 99-character line: short enough to fit a budget of 100 together with
its newline. -/
def lineX99 : List Char := List.replicate 99 'x'

/-- Concrete text whose trailing pending span is whitespace-only and gets
dropped: a full line followed by a trailing newline. -/
def exampleDropText : List Char := lineX99 ++ ['\n']

/-- Concrete text where the truncated over-long line shares its span with
a preceding empty line. -/
def exampleShareText : List Char := '\n' :: List.replicate 101 'x'

/-- The text a span must carry according to its recorded range: the
budget-transformed lines of the range, with the trailing trim applied. -/
def spanCover (B : Int) (L : List (List Char)) (r : SpanRange) : List Char :=
  trimEnd (joinLines B (slice L (r.startLine - 1) r.endLine))

/-- Invariant tying the spans and map accumulated by `splitLoop` to the
full line list `L`; `ssli` is the current `spanStartLineIndex`. -/
def mapSpansOK (B : Int) (L : List (List Char)) (spans : List (List Char))
    (m : List SpanRange) (ssli : Nat) : Prop :=
  spans.length = m.length ∧
  (m = [] → ssli = 0) ∧
  (lastEnd m = ssli) ∧
  (0 < m.length → (mget m 0).startLine = 1) ∧
  (∀ k, k + 1 < m.length → (mget m (k + 1)).startLine = (mget m k).endLine + 1) ∧
  (∀ k, k < m.length →
    1 ≤ (mget m k).startLine ∧ (mget m k).startLine ≤ (mget m k).endLine ∧
    (mget m k).endLine ≤ ssli ∧ sget spans k = spanCover B L (mget m k))

/-- Correctness of a finished split against the full line list `L`:
the ranges are contiguous from line 1, bounded by `L.length`, every span
text is the trimmed transform of its range's lines, and all lines beyond
the last recorded range form an all-whitespace dropped tail. -/
def splitOK (B : Int) (L : List (List Char)) (spans : List (List Char))
    (m : List SpanRange) : Prop :=
  spans.length = m.length ∧
  (0 < m.length → (mget m 0).startLine = 1) ∧
  (∀ k, k + 1 < m.length → (mget m (k + 1)).startLine = (mget m k).endLine + 1) ∧
  (∀ k, k < m.length →
    1 ≤ (mget m k).startLine ∧ (mget m k).startLine ≤ (mget m k).endLine ∧
    (mget m k).endLine ≤ lastEnd m ∧ sget spans k = spanCover B L (mget m k)) ∧
  lastEnd m ≤ L.length ∧
  trimChars (joinLines B (slice L (lastEnd m) L.length)) = []

/-- Amended claim C1: the recorded ranges are contiguous from line 1, the
last recorded `endLine` is at most the line count (it can be smaller, when
the trailing pending span is whitespace-only and dropped), the spans and
map have equal length whenever any range was recorded, and every span text
is exactly the trimmed concatenation of the budget-transformed lines of
its range. -/
def c1AmendedStatement (B : Int) (snapshot : List Char) : Prop :=
  ((splitSnapshotIntoSpans B snapshot).lineMap ≠ [] →
    (splitSnapshotIntoSpans B snapshot).spans.length =
      (splitSnapshotIntoSpans B snapshot).lineMap.length) ∧
  (0 < (splitSnapshotIntoSpans B snapshot).lineMap.length →
    (mget (splitSnapshotIntoSpans B snapshot).lineMap 0).startLine = 1) ∧
  (∀ k, k + 1 < (splitSnapshotIntoSpans B snapshot).lineMap.length →
    (mget (splitSnapshotIntoSpans B snapshot).lineMap (k + 1)).startLine =
      (mget (splitSnapshotIntoSpans B snapshot).lineMap k).endLine + 1) ∧
  lastEnd (splitSnapshotIntoSpans B snapshot).lineMap ≤ (splitLines snapshot).length ∧
  (∀ k, k < (splitSnapshotIntoSpans B snapshot).lineMap.length →
    (mget (splitSnapshotIntoSpans B snapshot).lineMap k).startLine ≤
      (mget (splitSnapshotIntoSpans B snapshot).lineMap k).endLine ∧
    sget (splitSnapshotIntoSpans B snapshot).spans k =
      spanCover B (splitLines snapshot) (mget (splitSnapshotIntoSpans B snapshot).lineMap k))

/-- Length bound claimed (in amended form) for every produced span: a span
either fits the budget, or its length is within the truncated prefix plus
the truncation marker of some over-budget line of the text. -/
def spanLenOK (B : Int) (LL : List (List Char)) (s : List Char) : Prop :=
  (s.length : Int) ≤ B ∨ ∃ l ∈ LL, B < (l.length : Int) + 1 ∧
    s.length ≤ (B - 50).toNat + (truncMarker l.length).length

/-- Amended claim C4: an over-budget line is truncated to `budget − 50`
characters plus the explicit marker; every produced span either fits the
budget or exceeds it only within the marker overhead of one of the text's
over-budget lines.  (The truncated line is not always alone in its span.) -/
def c4AmendedStatement (B : Int) (snapshot : List Char) : Prop :=
  (∀ line : List Char, B < (line.length : Int) →
    lineToAdd B line = line.take (B - 50).toNat ++ truncMarker line.length) ∧
  ∀ s ∈ (splitSnapshotIntoSpans B snapshot).spans, spanLenOK B (splitLines snapshot) s

/-- Claim C2: cursor reconciliation on a changed snapshot.  With a
previously empty span list the cursor lands at 0; with equal span counts,
the old cursor in bounds and all non-cursor spans unchanged it is kept;
in every other case it resets to 0; and it always ends up inside
`[0, spanCount − 1]`. -/
def c2Statement (st : TabState) (newText : List Char) : Prop :=
  (st.snapshotSpans = [] → (captureSnapshotUpdate st newText).currentSpanIndex = 0) ∧
  (st.snapshotSpans ≠ [] →
    (captureSnapshotUpdate st newText).snapshotSpans.length = st.snapshotSpans.length →
    st.currentSpanIndex < (st.snapshotSpans.length : Int) →
    (∀ i : Nat, i < st.snapshotSpans.length → (i : Int) ≠ st.currentSpanIndex →
      (captureSnapshotUpdate st newText).snapshotSpans.getD i [] =
        st.snapshotSpans.getD i []) →
    (captureSnapshotUpdate st newText).currentSpanIndex = st.currentSpanIndex) ∧
  (st.snapshotSpans ≠ [] →
    ¬((captureSnapshotUpdate st newText).snapshotSpans.length = st.snapshotSpans.length ∧
      st.currentSpanIndex < (st.snapshotSpans.length : Int) ∧
      ∀ i : Nat, i < st.snapshotSpans.length → (i : Int) ≠ st.currentSpanIndex →
        (captureSnapshotUpdate st newText).snapshotSpans.getD i [] =
          st.snapshotSpans.getD i []) →
    (captureSnapshotUpdate st newText).currentSpanIndex = 0) ∧
  (0 ≤ (captureSnapshotUpdate st newText).currentSpanIndex ∧
    (captureSnapshotUpdate st newText).currentSpanIndex <
      ((captureSnapshotUpdate st newText).snapshotSpans.length : Int))

/-- Claim C6: `navigateToLine` fails exactly on a missing snapshot or an
out-of-range line, with distinct messages, and on success renders the
claimed context window with the target line marked. -/
def c6Statement (st : TabState) : Prop :=
  (∀ g : Int, ∀ c : Nat, ((navigateToLine st g c).success = false ↔
    (st.globalLines.length = 0 ∨ g < 1 ∨ (st.globalLines.length : Int) < g))) ∧
  (∀ c : Nat, (navigateToLine st 0 c).success = false ∧
    (navigateToLine st ((st.globalLines.length : Int) + 1) c).success = false) ∧
  (∀ g : Int, ∀ c : Nat, st.globalLines.length = 0 →
    (navigateToLine st g c).lineInfo =
      "No snapshot available. Take a snapshot first.".data) ∧
  (∀ g : Int, ∀ c : Nat, st.globalLines.length ≠ 0 →
    (g < 1 ∨ (st.globalLines.length : Int) < g) →
    (navigateToLine st g c).lineInfo =
      "Line ".data ++ intStr g ++ " is out of range. Snapshot has ".data ++
        natStr st.globalLines.length ++ " lines.".data ∧
    (navigateToLine st g c).lineInfo ≠
      "No snapshot available. Take a snapshot first.".data) ∧
  (∀ g : Int, ∀ c : Nat, 1 ≤ g → g ≤ (st.globalLines.length : Int) →
    (navigateToLine st g c).success = true ∧
    (navigateToLine st g c).content = specRenderWindow st.globalLines
      (max 1 (g.toNat - c)) (min st.globalLines.length (g.toNat + c)) g.toNat)

/-- Claim C7: every span-navigation operation clamps into
`[0, spanCount − 1]`, fails only on an empty span list, and next/prev at
the boundary are no-ops returning the boundary span with success. -/
def c7Statement (st : TabState) : Prop :=
  (∀ i : Int, ((navigateToSpan st i).2.success = false ↔ st.snapshotSpans.length = 0)) ∧
  (((navigateToFirstSpan st).2.success = false ↔ st.snapshotSpans.length = 0) ∧
    ((navigateToLastSpan st).2.success = false ↔ st.snapshotSpans.length = 0) ∧
    ((navigateToNextSpan st).2.success = false ↔ st.snapshotSpans.length = 0) ∧
    ((navigateToPrevSpan st).2.success = false ↔ st.snapshotSpans.length = 0)) ∧
  (∀ i : Int, st.snapshotSpans.length ≠ 0 →
    (navigateToSpan st i).2.spanIndex = max 0 (min i ((st.snapshotSpans.length : Int) - 1)) ∧
    0 ≤ (navigateToSpan st i).2.spanIndex ∧
    (navigateToSpan st i).2.spanIndex < (st.snapshotSpans.length : Int) ∧
    (navigateToSpan st i).2.span =
      st.snapshotSpans.getD (navigateToSpan st i).2.spanIndex.toNat [] ∧
    (navigateToSpan st i).2.totalSpans = st.snapshotSpans.length ∧
    (navigateToSpan st i).1.currentSpanIndex = (navigateToSpan st i).2.spanIndex) ∧
  (st.snapshotSpans.length ≠ 0 → (navigateToSpan st (-5)).2.spanIndex = 0) ∧
  (st.snapshotSpans.length ≠ 0 →
    st.currentSpanIndex = (st.snapshotSpans.length : Int) - 1 →
    (navigateToNextSpan st).1 = st ∧ (navigateToNextSpan st).2.success = true ∧
    (navigateToNextSpan st).2.spanIndex = (st.snapshotSpans.length : Int) - 1) ∧
  (st.snapshotSpans.length ≠ 0 → st.currentSpanIndex = 0 →
    (navigateToPrevSpan st).1 = st ∧ (navigateToPrevSpan st).2.success = true ∧
    (navigateToPrevSpan st).2.spanIndex = 0)

/-- Claim C8: every match of a search over a freshly split snapshot has a
global line number accepted by `navigateToLine` on the same state, which
then renders the window around exactly that target line. -/
def c8Statement (B : Int) (snapshot : List Char) (r : JSRegex) (c : Nat) : Prop :=
  ∀ m ∈ (searchInSnapshot r (stateAfterSplit B snapshot)).2,
    1 ≤ m.globalLineNumber ∧
    m.globalLineNumber ≤ (splitLines snapshot).length ∧
    (navigateToLine (stateAfterSplit B snapshot) (m.globalLineNumber : Int) c).success = true ∧
    (navigateToLine (stateAfterSplit B snapshot) (m.globalLineNumber : Int) c).content =
      specRenderWindow (splitLines snapshot) (max 1 (m.globalLineNumber - c))
        (min (splitLines snapshot).length (m.globalLineNumber + c)) m.globalLineNumber

/-- Claim C9: the modal-state queue is append-only at the tail, clearing
removes exactly the given entry preserving the order of the others, and
the race returns the oldest entry when the queue is non-empty. -/
def c9Statement (M : Type) [DecidableEq M] : Prop :=
  (∀ (q : List M) (m : M), (setModalState q m).length = q.length + 1 ∧
    (setModalState q m).take q.length = q ∧ (setModalState q m).getLast? = some m) ∧
  (∀ (q : List M) (m : M), (clearModalState q m).Sublist q ∧
    m ∉ clearModalState q m ∧
    ∀ x : M, x ≠ m → (clearModalState q m).count x = q.count x) ∧
  (∀ (q : List M) (outcome : RaceOutcome M) (h : q ≠ []),
    raceAgainstModalStates q outcome = some (q.head h))

/-- Claim C10: the last recorded `endLine` is at most the line count, no
recorded range reaches past it, all lines beyond it are whitespace-only
(the dropped pending span), and `navigateToLine` aimed at such a trailing
line succeeds while reporting span information unavailable. -/
def c10Statement (B : Int) (snapshot : List Char) : Prop :=
  lastEnd (splitSnapshotIntoSpans B snapshot).lineMap ≤ (splitLines snapshot).length ∧
  (∀ k, k < (splitSnapshotIntoSpans B snapshot).lineMap.length →
    (mget (splitSnapshotIntoSpans B snapshot).lineMap k).endLine ≤
      lastEnd (splitSnapshotIntoSpans B snapshot).lineMap) ∧
  (∀ j, lastEnd (splitSnapshotIntoSpans B snapshot).lineMap ≤ j →
    j < (splitLines snapshot).length →
    ∀ c ∈ (splitLines snapshot).getD j [], isWS c) ∧
  (∀ (g : Int) (c : Nat),
    (lastEnd (splitSnapshotIntoSpans B snapshot).lineMap : Int) + c < g →
    g ≤ ((splitLines snapshot).length : Int) →
    (navigateToLine (stateAfterSplit B snapshot) g c).success = true ∧
    List.IsSuffix ("Span information unavailable".data)
      (navigateToLine (stateAfterSplit B snapshot) g c).lineInfo)

theorem trimChars_nil : trimChars [] = [] := rfl

theorem trimEnd_eq_nil_iff (s : List Char) : trimEnd s = [] ↔ ∀ c ∈ s, isWS c := by
  unfold trimEnd
  rw [List.reverse_eq_nil_iff, List.dropWhile_eq_nil_iff]
  constructor
  · intro h c hc
    exact h c (List.mem_reverse.mpr hc)
  · intro h c hc
    exact h c (List.mem_reverse.mp hc)

theorem trimChars_eq_nil_iff (s : List Char) : trimChars s = [] ↔ ∀ c ∈ s, isWS c := by
  unfold trimChars trimStart
  constructor
  · intro h c hc
    have hall : ∀ x ∈ trimEnd s, isWS x := List.dropWhile_eq_nil_iff.mp h
    have hc' : c ∈ s.reverse := List.mem_reverse.mpr hc
    rw [← List.takeWhile_append_dropWhile (p := isWS) (l := s.reverse)] at hc'
    rcases List.mem_append.mp hc' with h1 | h2
    · exact List.mem_takeWhile_imp h1
    · exact hall c (List.mem_reverse.mpr h2)
  · intro h
    rw [(trimEnd_eq_nil_iff s).mpr h]
    rfl

theorem trimEnd_append_ws (s : List Char) (c : Char) (h : isWS c) :
    trimEnd (s ++ [c]) = trimEnd s := by
  unfold trimEnd
  rw [List.reverse_append]
  simp [List.dropWhile_cons, h]

theorem count_trimEnd_le (s : List Char) (c : Char) :
    (trimEnd s).count c ≤ s.count c := by
  unfold trimEnd
  rw [List.count_reverse]
  calc (s.reverse.dropWhile isWS).count c
      ≤ s.reverse.count c := (List.dropWhile_sublist isWS).count_le c
    _ = s.count c := List.count_reverse ..

theorem splitLinesAux_ne_nil (s : List Char) : ∀ cur, splitLinesAux cur s ≠ [] := by
  induction s with
  | nil => intro cur; simp [splitLinesAux]
  | cons c cs ih =>
    intro cur
    by_cases h : c = '\n' <;> simp [splitLinesAux, h, ih]

theorem splitLines_ne_nil (s : List Char) : splitLines s ≠ [] :=
  splitLinesAux_ne_nil s []

theorem splitLinesAux_no_newline (s : List Char) :
    ∀ cur, '\n' ∉ cur → ∀ l ∈ splitLinesAux cur s, '\n' ∉ l := by
  induction s with
  | nil =>
    intro cur hcur l hl
    simp only [splitLinesAux, List.mem_singleton] at hl
    subst hl
    simpa using hcur
  | cons c cs ih =>
    intro cur hcur l hl
    by_cases h : c = '\n'
    · simp only [splitLinesAux, h, if_pos] at hl
      rw [beq_self_eq_true] at hl
      simp only [if_pos] at hl
      rcases List.mem_cons.mp hl with rfl | hl'
      · simpa using hcur
      · exact ih [] (by simp) l hl'
    · have hb : (c == '\n') = false := beq_eq_false_iff_ne.mpr h
      simp only [splitLinesAux, hb, Bool.false_eq_true, if_false] at hl
      refine ih (c :: cur) ?_ l hl
      intro hmem
      rcases List.mem_cons.mp hmem with heq | h2
      · exact h heq.symm
      · exact hcur h2

theorem splitLines_no_newline (s : List Char) : ∀ l ∈ splitLines s, '\n' ∉ l :=
  splitLinesAux_no_newline s [] (by simp)

theorem splitLinesAux_length (s : List Char) :
    ∀ cur, (splitLinesAux cur s).length = s.count '\n' + 1 := by
  induction s with
  | nil => intro cur; simp [splitLinesAux]
  | cons c cs ih =>
    intro cur
    by_cases h : c = '\n'
    · subst h
      simp [splitLinesAux, ih, List.count_cons]
    · have hb : (c == '\n') = false := beq_eq_false_iff_ne.mpr h
      have hb' : ('\n' == c) = false := beq_eq_false_iff_ne.mpr (fun hh => h hh.symm)
      simp [splitLinesAux, hb, ih, List.count_cons, hb']

theorem splitLines_length (s : List Char) :
    (splitLines s).length = s.count '\n' + 1 :=
  splitLinesAux_length s []

theorem slice_nil_of_le {α : Type} (xs : List α) {a b : Nat} (h : b ≤ a) :
    slice xs a b = [] := by
  unfold slice
  apply List.drop_eq_nil_of_le
  rw [List.length_take]
  exact le_trans (Nat.min_le_left _ _) h

theorem slice_zero_length {α : Type} (xs : List α) : slice xs 0 xs.length = xs := by
  unfold slice
  simp

theorem slice_all_of_le {α : Type} (xs : List α) (a : Nat) :
    slice xs a xs.length = xs.drop a := by
  unfold slice
  simp

theorem slice_snoc {α : Type} (xs : List α) (d : α) {a b : Nat} (hab : a ≤ b)
    (hb : b < xs.length) :
    slice xs a (b + 1) = slice xs a b ++ [xs.getD b d] := by
  unfold slice
  rw [List.take_succ]
  rw [List.getElem?_eq_getElem hb]
  rw [List.drop_append_of_le_length (by rw [List.length_take]; omega)]
  rw [List.getD_eq_getElem xs d hb]
  simp

theorem length_slice {α : Type} (xs : List α) {a b : Nat} (hb : b ≤ xs.length) :
    (slice xs a b).length = b - a := by
  unfold slice
  rw [List.length_drop, List.length_take]
  omega

theorem mem_slice {α : Type} {xs : List α} {a b : Nat} {x : α}
    (h : x ∈ slice xs a b) : x ∈ xs := by
  unfold slice at h
  exact ((List.drop_sublist _ _).trans (List.take_sublist _ _)).subset h

theorem joinLines_append (B : Int) (l1 l2 : List (List Char)) :
    joinLines B (l1 ++ l2) = joinLines B l1 ++ joinLines B l2 := by
  induction l1 with
  | nil => rfl
  | cons x xs ih => simp [joinLines, ih]

theorem lineToAdd_ne_nil (B : Int) (line : List Char) : lineToAdd B line ≠ [] := by
  unfold lineToAdd
  split
  · simp [truncMarker]
  · simp

theorem joinLines_eq_nil (B : Int) {ls : List (List Char)}
    (h : joinLines B ls = []) : ls = [] := by
  cases ls with
  | nil => rfl
  | cons x xs =>
    exact absurd (List.append_eq_nil.mp h).1 (lineToAdd_ne_nil B x)

theorem digitChar_ne_newline (m : Nat) : Nat.digitChar m ≠ '\n' := by
  rcases Nat.lt_or_ge m 16 with h | h
  · interval_cases m <;> decide
  · unfold Nat.digitChar
    repeat rw [if_neg (by omega)]
    decide

theorem toDigitsCore_no_newline (b : Nat) :
    ∀ (fuel n : Nat) (acc : List Char), '\n' ∉ acc →
      '\n' ∉ Nat.toDigitsCore b fuel n acc := by
  intro fuel
  induction fuel with
  | zero =>
    intro n acc h
    simpa [Nat.toDigitsCore] using h
  | succ f ih =>
    intro n acc h
    rw [Nat.toDigitsCore]
    split
    · intro hmem
      rcases List.mem_cons.mp hmem with heq | h2
      · exact digitChar_ne_newline _ heq.symm
      · exact h h2
    · refine ih _ _ ?_
      intro hmem
      rcases List.mem_cons.mp hmem with heq | h2
      · exact digitChar_ne_newline _ heq.symm
      · exact h h2

theorem toDigits_no_newline (n : Nat) : '\n' ∉ Nat.toDigits 10 n := by
  unfold Nat.toDigits
  exact toDigitsCore_no_newline 10 _ _ [] (by simp)

theorem truncMarker_decomp (n : Nat) :
    ∃ w, truncMarker n = w ++ ['\n'] ∧ '\n' ∉ w := by
  refine ⟨"... [line truncated, originally with ".data ++ Nat.toDigits 10 n ++
    " chars]".data, by simp [truncMarker], ?_⟩
  intro h
  rcases List.mem_append.mp h with h1 | h2
  · rcases List.mem_append.mp h1 with ha | hb
    · revert ha; decide
    · exact toDigits_no_newline n hb
  · revert h2; decide

theorem lineToAdd_decomp (B : Int) (line : List Char) (h : '\n' ∉ line) :
    ∃ w, lineToAdd B line = w ++ ['\n'] ∧ '\n' ∉ w := by
  unfold lineToAdd
  split
  · obtain ⟨w, hw, hwn⟩ := truncMarker_decomp line.length
    refine ⟨line.take (B - 50).toNat ++ w, by rw [hw, List.append_assoc], ?_⟩
    intro hmem
    rcases List.mem_append.mp hmem with h1 | h2
    · exact h ((List.take_sublist _ _).subset h1)
    · exact hwn h2
  · exact ⟨line, rfl, h⟩

theorem count_newline_lineToAdd (B : Int) (line : List Char) (h : '\n' ∉ line) :
    (lineToAdd B line).count '\n' = 1 := by
  obtain ⟨w, hw, hwn⟩ := lineToAdd_decomp B line h
  rw [hw, List.count_append, List.count_eq_zero.mpr hwn]
  simp

theorem count_newline_joinLines (B : Int) (ls : List (List Char))
    (h : ∀ l ∈ ls, '\n' ∉ l) : (joinLines B ls).count '\n' = ls.length := by
  induction ls with
  | nil => rfl
  | cons x xs ih =>
    simp only [joinLines, List.count_append]
    rw [count_newline_lineToAdd B x (h x (by simp)),
      ih (fun l hl => h l (by simp [hl]))]
    simp [Nat.add_comm]

theorem mget_append_lt (m : List SpanRange) (e : SpanRange) {k : Nat}
    (h : k < m.length) : mget (m ++ [e]) k = mget m k :=
  List.getD_append m [e] ⟨0, 0⟩ k h

theorem mget_append_eq (m : List SpanRange) (e : SpanRange) :
    mget (m ++ [e]) m.length = e := by
  unfold mget
  rw [List.getD_append_right m [e] ⟨0, 0⟩ m.length (le_refl _)]
  simp

theorem sget_append_lt (s : List (List Char)) (x : List Char) {k : Nat}
    (h : k < s.length) : sget (s ++ [x]) k = sget s k :=
  List.getD_append s [x] [] k h

theorem sget_append_eq (s : List (List Char)) (x : List Char) :
    sget (s ++ [x]) s.length = x := by
  unfold sget
  rw [List.getD_append_right s [x] [] s.length (le_refl _)]
  simp

theorem lastEnd_append (m : List SpanRange) (e : SpanRange) :
    lastEnd (m ++ [e]) = e.endLine := by
  unfold lastEnd
  rw [List.length_append, List.length_singleton, Nat.add_sub_cancel, mget_append_eq]

theorem mapSpansOK_push (B : Int) (L : List (List Char)) {spans : List (List Char)}
    {m : List SpanRange} {ssli j : Nat}
    (hok : mapSpansOK B L spans m ssli) (hlt : ssli < j) :
    mapSpansOK B L (spans ++ [trimEnd (joinLines B (slice L ssli j))])
      (m ++ [⟨ssli + 1, j⟩]) j := by
  obtain ⟨hlen, hnil, hlast, hhead, hchain, hper⟩ := hok
  refine ⟨by simp [hlen], by simp, by rw [lastEnd_append], ?_, ?_, ?_⟩
  · intro _
    rcases Nat.eq_zero_or_pos m.length with hm | hm
    · have hm' : m = [] := List.length_eq_zero.mp hm
      subst hm'
      have h0 : ssli = 0 := hnil rfl
      simp [mget, h0]
    · rw [mget_append_lt m _ hm]
      exact hhead hm
  · intro k hk
    rw [List.length_append, List.length_singleton] at hk
    rcases Nat.lt_or_ge (k + 1) m.length with h1 | h1
    · rw [mget_append_lt m _ h1, mget_append_lt m _ (by omega)]
      exact hchain k h1
    · have hk1 : k + 1 = m.length := by omega
      rw [hk1, mget_append_eq, mget_append_lt m _ (by omega : k < m.length)]
      have hke : (mget m k).endLine = ssli := by
        unfold lastEnd at hlast
        rw [show m.length - 1 = k by omega] at hlast
        exact hlast
      rw [hke]
  · intro k hk
    rw [List.length_append, List.length_singleton] at hk
    rcases Nat.lt_or_ge k m.length with h1 | h1
    · rw [mget_append_lt m _ h1, sget_append_lt spans _ (by rw [hlen]; exact h1)]
      obtain ⟨p1, p2, p3, p4⟩ := hper k h1
      exact ⟨p1, p2, by omega, p4⟩
    · have hk1 : k = m.length := by omega
      subst hk1
      rw [mget_append_eq, ← hlen, sget_append_eq]
      refine ⟨Nat.succ_le_succ (Nat.zero_le ssli), Nat.succ_le_of_lt hlt, le_refl _, ?_⟩
      unfold spanCover
      simp

theorem mapSpansOK_to_splitOK (B : Int) (L : List (List Char))
    {spans : List (List Char)} {m : List SpanRange} {ssli : Nat}
    (hok : mapSpansOK B L spans m ssli) (hs : ssli ≤ L.length)
    (htrail : trimChars (joinLines B (slice L ssli L.length)) = []) :
    splitOK B L spans m := by
  obtain ⟨hlen, hnil, hlast, hhead, hchain, hper⟩ := hok
  refine ⟨hlen, hhead, hchain, ?_, ?_, ?_⟩
  · intro k hk
    obtain ⟨p1, p2, p3, p4⟩ := hper k hk
    exact ⟨p1, p2, by rw [hlast]; exact p3, p4⟩
  · rw [hlast]; exact hs
  · rw [hlast]; exact htrail

theorem splitLoop_ok (B : Int) (L : List (List Char)) :
    ∀ (rest : List (List Char)) (i : Nat) (cur : List Char) (curLen ssli : Nat)
      (spans : List (List Char)) (m : List SpanRange),
      rest = L.drop i → i ≤ L.length → curLen = cur.length → ssli ≤ i →
      cur = joinLines B (slice L ssli i) →
      mapSpansOK B L spans m ssli →
      splitOK B L (splitLoop B L.length rest i cur curLen ssli spans m).1
        (splitLoop B L.length rest i cur curLen ssli spans m).2 := by
  intro rest
  induction rest with
  | nil =>
    intro i cur curLen ssli spans m hrest hi hcl hsi hcur hok
    have hiL : i = L.length := by
      have := congrArg List.length hrest
      simp only [List.length_nil, List.length_drop] at this
      omega
    subst hiL
    simp only [splitLoop]
    split
    · rename_i hpos
      have hcur_ne : cur ≠ [] := by
        intro h0
        rw [h0, trimChars_nil] at hpos
        simp at hpos
      have hslt : ssli < L.length := by
        by_contra hge
        push_neg at hge
        rw [slice_nil_of_le L hge] at hcur
        exact hcur_ne (by rw [hcur]; rfl)
      have hpush := mapSpansOK_push B L hok hslt
      rw [hcur]
      exact mapSpansOK_to_splitOK B L hpush (le_refl _)
        (by rw [slice_nil_of_le L (le_refl _)]; rfl)
    · rename_i hpos
      have htc : trimChars cur = [] := by
        have : (trimChars cur).length = 0 := by omega
        exact List.length_eq_zero.mp this
      exact mapSpansOK_to_splitOK B L hok hsi (by rw [← hcur]; exact htc)
  | cons line rest ih =>
    intro i cur curLen ssli spans m hrest hi hcl hsi hcur hok
    have hiL : i < L.length := by
      have := congrArg List.length hrest
      simp only [List.length_cons, List.length_drop] at this
      omega
    have hline : L.getD i [] = line := by
      have h1 : L.drop i = line :: rest := hrest.symm
      have h0 : 0 < (L.drop i).length := by rw [h1]; simp
      have h2 : (L.drop i).getD 0 [] = line := by rw [h1]; rfl
      rw [List.getD_eq_getElem _ _ h0] at h2
      rw [List.getElem_drop] at h2
      rw [List.getD_eq_getElem _ _ hiL]
      simpa using h2
    have hrest' : rest = L.drop (i + 1) := by
      have h1 : L.drop i = line :: rest := hrest.symm
      have h2 : (L.drop i).tail = rest := by rw [h1]; rfl
      rw [← h2, List.tail_drop]
    simp only [splitLoop]
    split
    · rename_i hcond
      obtain ⟨hgt, hcpos⟩ := hcond
      have hcur_ne : cur ≠ [] := by
        intro h0
        rw [h0] at hcpos
        simp at hcpos
      have hslt : ssli < i := by
        by_contra hge
        push_neg at hge
        rw [slice_nil_of_le L hge] at hcur
        exact hcur_ne (by rw [hcur]; rfl)
      have hpush := mapSpansOK_push B L hok hslt
      refine ih (i + 1) (lineToAdd B line) (lineToAdd B line).length i
        (spans ++ [trimEnd cur]) (m ++ [⟨ssli + 1, i⟩]) hrest' (by omega) rfl
        (by omega) ?_ ?_
      · rw [slice_snoc L [] (le_refl i) hiL, slice_nil_of_le L (le_refl i), hline]
        simp [joinLines]
      · rw [hcur]
        exact hpush
    · refine ih (i + 1) (cur ++ lineToAdd B line) (curLen + (lineToAdd B line).length)
        ssli spans m hrest' (by omega) ?_ (by omega) ?_ hok
      · rw [List.length_append, hcl]
      · rw [slice_snoc L [] hsi hiL, hline, joinLines_append, ← hcur]
        simp [joinLines]

theorem splitLoop_initial_ok (B : Int) (snapshot : List Char) :
    splitOK B (splitLines snapshot)
      (splitLoop B (splitLines snapshot).length (splitLines snapshot) 0 [] 0 0 [] []).1
      (splitLoop B (splitLines snapshot).length (splitLines snapshot) 0 [] 0 0 [] []).2 := by
  refine splitLoop_ok B (splitLines snapshot) (splitLines snapshot) 0 [] 0 0 [] []
    (by simp) (Nat.zero_le _) rfl (le_refl 0) ?_ ?_
  · rw [slice_nil_of_le _ (le_refl 0)]
    rfl
  · exact ⟨rfl, fun _ => rfl, rfl, fun h => absurd h (by simp),
      fun k hk => absurd hk (by simp), fun k hk => absurd hk (by simp)⟩

theorem splitSnapshotIntoSpans_ok (B : Int) (snapshot : List Char) (hB : B ≠ -1) :
    ((splitSnapshotIntoSpans B snapshot).lineMap ≠ [] →
      splitOK B (splitLines snapshot) (splitSnapshotIntoSpans B snapshot).spans
        (splitSnapshotIntoSpans B snapshot).lineMap) ∧
    lastEnd (splitSnapshotIntoSpans B snapshot).lineMap ≤ (splitLines snapshot).length ∧
    trimChars (joinLines B (slice (splitLines snapshot)
      (lastEnd (splitSnapshotIntoSpans B snapshot).lineMap)
      (splitLines snapshot).length)) = [] := by
  have hok := splitLoop_initial_ok B snapshot
  simp only [splitSnapshotIntoSpans, if_neg hB]
  split
  · exact ⟨fun _ => hok, hok.2.2.2.2.1, hok.2.2.2.2.2⟩
  · rename_i hnot
    have h1 : (splitLoop B (splitLines snapshot).length (splitLines snapshot)
        0 [] 0 0 [] []).1.length = 0 := by omega
    have h2 : (splitLoop B (splitLines snapshot).length (splitLines snapshot)
        0 [] 0 0 [] []).2 = [] := by
      rw [← List.length_eq_zero, ← hok.1]
      exact h1
    refine ⟨fun hne => absurd h2 hne, ?_, ?_⟩
    · rw [h2]
      exact Nat.zero_le _
    · rw [h2]
      have htr := hok.2.2.2.2.2
      rw [h2] at htr
      exact htr

theorem splitSpans_ne_nil (B : Int) (snapshot : List Char) :
    (splitSnapshotIntoSpans B snapshot).spans ≠ [] := by
  simp only [splitSnapshotIntoSpans]
  split
  · simp
  · split
    · rename_i h
      intro hc
      have hc' : (splitLoop B (splitLines snapshot).length (splitLines snapshot)
          0 [] 0 0 [] []).1 = [] := hc
      rw [hc'] at h
      simp at h
    · simp

theorem joinLines_all_ws (B : Int) (ls : List (List Char))
    (h : ∀ c ∈ joinLines B ls, isWS c) : ∀ l ∈ ls, ∀ c ∈ l, isWS c := by
  induction ls with
  | nil =>
    intro l hl
    simp at hl
  | cons x xs ih =>
    intro l hl
    rcases List.mem_cons.mp hl with rfl | hl'
    · intro c hc
      have hsplit : ∀ d ∈ lineToAdd B l, isWS d := by
        intro d hd
        refine h d ?_
        simp only [joinLines, List.mem_append]
        exact Or.inl hd
      by_cases ht : (((l ++ ['\n']).length : Int) > B)
      · exfalso
        have hbr : ']' ∈ lineToAdd B l := by
          unfold lineToAdd
          rw [if_pos ht]
          refine List.mem_append.mpr (Or.inr ?_)
          unfold truncMarker
          exact List.mem_append.mpr (Or.inl (List.mem_append.mpr (Or.inr (by decide))))
        have hcontra := hsplit ']' hbr
        simp [isWS] at hcontra
      · have heq : lineToAdd B l = l ++ ['\n'] := by
          unfold lineToAdd
          rw [if_neg ht]
        exact hsplit c (by rw [heq]; exact List.mem_append.mpr (Or.inl hc))
    · refine ih ?_ l hl'
      intro d hd
      refine h d ?_
      simp only [joinLines, List.mem_append]
      exact Or.inr hd

theorem getD_mem_drop {α : Type} {xs : List α} {E j : Nat} (d : α) (hE : E ≤ j)
    (hj : j < xs.length) : xs.getD j d ∈ xs.drop E := by
  obtain ⟨n, rfl⟩ : ∃ n, j = E + n := ⟨j - E, by omega⟩
  rw [List.getD_eq_getElem xs d hj]
  have h2 : n < (xs.drop E).length := by
    rw [List.length_drop]
    omega
  simpa using List.getElem_mem h2

theorem trailing_lines_ws (B : Int) (snapshot : List Char) (hB : B ≠ -1) :
    ∀ j, lastEnd (splitSnapshotIntoSpans B snapshot).lineMap ≤ j →
      j < (splitLines snapshot).length →
      ∀ c ∈ (splitLines snapshot).getD j [], isWS c := by
  intro j hj1 hj2 c hc
  obtain ⟨-, -, htrail⟩ := splitSnapshotIntoSpans_ok B snapshot hB
  have hws := (trimChars_eq_nil_iff _).mp htrail
  have hmem : (splitLines snapshot).getD j [] ∈ slice (splitLines snapshot)
      (lastEnd (splitSnapshotIntoSpans B snapshot).lineMap)
      (splitLines snapshot).length := by
    rw [slice_all_of_le]
    exact getD_mem_drop [] hj1 hj2
  exact joinLines_all_ws B _ hws _ hmem c hc

/-- Claim C1, counterexample: for the text consisting of a 99-character
line followed by a trailing newline, with budget 100, the final pending
span (one empty line) is whitespace-only and dropped, so the recorded
ranges do not partition `[1, lineCount]`: the last recorded `endLine` is 1
while the text has 2 lines. -/
theorem c1_counterexample :
    ¬ claimC1Partition (splitSnapshotIntoSpans 100 exampleDropText).lineMap
      (splitLines exampleDropText).length := by
  intro h
  exact absurd h.2.2.2 (by decide)

/-- Claim C1 (amended): for every snapshot text and every budget of at
least 100, the recorded span ranges start at line 1, are contiguous
(`startLine` of span `i+1` is `endLine` of span `i` plus 1), end at or
before the total line count (strictly before exactly when a trailing
whitespace-only pending span was dropped), and every span text is the
trimmed concatenation of the truncation-transformed lines of its range,
so the spans cover lines 1 through the last recorded `endLine` exactly
once, in order. -/
theorem c1_amended_partition (B : Int) (snapshot : List Char) (hB : 100 ≤ B) :
    c1AmendedStatement B snapshot := by
  have hB' : B ≠ -1 := by omega
  obtain ⟨hmain, hle, -⟩ := splitSnapshotIntoSpans_ok B snapshot hB'
  by_cases hm : (splitSnapshotIntoSpans B snapshot).lineMap = []
  · refine ⟨fun hne => absurd hm hne, ?_, ?_, hle, ?_⟩
    · rw [hm]
      intro h
      simp at h
    · rw [hm]
      intro k hk
      simp at hk
    · rw [hm]
      intro k hk
      simp at hk
  · obtain ⟨hlen, hhead, hchain, hper, -, -⟩ := hmain hm
    exact ⟨fun _ => hlen, hhead, hchain, hle,
      fun k hk => ⟨(hper k hk).2.1, (hper k hk).2.2.2⟩⟩

/-- Witness for the amended C1 at a concrete text and budget. -/
theorem c1_amended_partition_witness :
    (100 : Int) ≤ 100 ∧ c1AmendedStatement 100 "ab\ncd".data :=
  ⟨by decide, c1_amended_partition 100 "ab\ncd".data (by decide)⟩

theorem length_trimEnd_le (s : List Char) : (trimEnd s).length ≤ s.length := by
  unfold trimEnd
  rw [List.length_reverse]
  calc (s.reverse.dropWhile isWS).length
      ≤ s.reverse.length := (List.dropWhile_sublist isWS).length_le
    _ = s.length := List.length_reverse s

theorem spanLenOK_of_le (B : Int) (LL : List (List Char)) {s t : List Char}
    (h : spanLenOK B LL t) (hle : s.length ≤ t.length) : spanLenOK B LL s := by
  rcases h with h1 | ⟨l, hl, hcond, hlen⟩
  · left
    have : (s.length : Int) ≤ (t.length : Int) := by exact_mod_cast hle
    omega
  · right
    exact ⟨l, hl, hcond, by omega⟩

theorem spanLenOK_lineToAdd (B : Int) (LL : List (List Char)) (line : List Char)
    (hmem : line ∈ LL) : spanLenOK B LL (lineToAdd B line) := by
  unfold lineToAdd
  split
  · rename_i ht
    rw [List.length_append, List.length_singleton] at ht
    right
    refine ⟨line, hmem, ?_, ?_⟩
    · push_cast at ht ⊢
      omega
    · rw [List.length_append, List.length_take]
      omega
  · rename_i ht
    rw [List.length_append, List.length_singleton] at ht
    left
    rw [List.length_append, List.length_singleton]
    push_cast at ht ⊢
    omega

theorem splitLoop_spanLen (B : Int) (LL : List (List Char)) (lineCount : Nat) :
    ∀ (rest : List (List Char)) (i : Nat) (cur : List Char) (curLen ssli : Nat)
      (spans : List (List Char)) (m : List SpanRange),
      (∀ l ∈ rest, l ∈ LL) →
      curLen = cur.length →
      spanLenOK B LL cur →
      (∀ s ∈ spans, spanLenOK B LL s) →
      ∀ s ∈ (splitLoop B lineCount rest i cur curLen ssli spans m).1,
        spanLenOK B LL s := by
  intro rest
  induction rest with
  | nil =>
    intro i cur curLen ssli spans m hsub hcl hcur hspans
    simp only [splitLoop]
    split
    · intro s hs
      rcases List.mem_append.mp hs with h1 | h2
      · exact hspans s h1
      · rw [List.mem_singleton] at h2
        subst h2
        exact spanLenOK_of_le B LL hcur (length_trimEnd_le cur)
    · exact hspans
  | cons line rest ih =>
    intro i cur curLen ssli spans m hsub hcl hcur hspans
    have hsub' : ∀ l ∈ rest, l ∈ LL := fun l hl => hsub l (by simp [hl])
    have hmem : line ∈ LL := hsub line (by simp)
    simp only [splitLoop]
    split
    · refine ih (i + 1) (lineToAdd B line) (lineToAdd B line).length i
        (spans ++ [trimEnd cur]) (m ++ [⟨ssli + 1, i⟩]) hsub' rfl
        (spanLenOK_lineToAdd B LL line hmem) ?_
      intro s hs
      rcases List.mem_append.mp hs with h1 | h2
      · exact hspans s h1
      · rw [List.mem_singleton] at h2
        subst h2
        exact spanLenOK_of_le B LL hcur (length_trimEnd_le cur)
    · rename_i hcond
      refine ih (i + 1) (cur ++ lineToAdd B line) (curLen + (lineToAdd B line).length)
        ssli spans m hsub' (by rw [List.length_append, hcl]) ?_ hspans
      rcases not_and_or.mp hcond with hA | hC
      · left
        rw [List.length_append]
        push_cast
        omega
      · have hnil : cur = [] := by
          have : cur.length = 0 := by omega
          exact List.length_eq_zero.mp this
        rw [hnil, List.nil_append]
        exact spanLenOK_lineToAdd B LL line hmem

/-- Claim C4, counterexample: with budget 100, the 101-character line is
truncated, but it is not placed in a span of its own: the single produced
span also contains the preceding empty line. -/
theorem c4_counterexample :
    (100 : Int) < ((List.replicate 101 'x' : List Char).length : Int) ∧
    List.replicate 101 'x' ∈ splitLines exampleShareText ∧
    ∀ s ∈ (splitSnapshotIntoSpans 100 exampleShareText).spans,
      s ≠ trimEnd (lineToAdd 100 (List.replicate 101 'x')) ∧
      s ≠ lineToAdd 100 (List.replicate 101 'x') := by
  refine ⟨by decide, by decide, ?_⟩
  decide

/-- Claim C4 (amended): for every budget of at least 100, a line whose
length alone exceeds the budget is truncated to `budget − 50` characters
followed by the explicit truncation marker, and no produced span exceeds
the budget by more than the marker overhead of one of the text's
over-budget lines (the truncated line can share its span with other short
lines when the total stays within budget). -/
theorem c4_amended_truncation (B : Int) (snapshot : List Char) (hB : 100 ≤ B) :
    c4AmendedStatement B snapshot := by
  constructor
  · intro line hlen
    unfold lineToAdd
    rw [if_pos]
    rw [List.length_append, List.length_singleton]
    push_cast
    omega
  · have hB' : B ≠ -1 := by omega
    simp only [splitSnapshotIntoSpans, if_neg hB']
    split
    · exact splitLoop_spanLen B (splitLines snapshot) (splitLines snapshot).length
        (splitLines snapshot) 0 [] 0 0 [] [] (fun l hl => hl) rfl
        (Or.inl (by simp; omega)) (fun s hs => absurd hs (by simp))
    · intro s hs
      rw [List.mem_singleton] at hs
      subst hs
      left
      simp
      omega

/-- Witness for the amended C4 at a concrete text and budget. -/
theorem c4_amended_truncation_witness :
    (100 : Int) ≤ 100 ∧ c4AmendedStatement 100 exampleShareText :=
  ⟨by decide, c4_amended_truncation 100 exampleShareText (by decide)⟩

theorem navigateToLine_success (st : TabState) (g : Int) (c : Nat)
    (hne : st.globalLines.length ≠ 0) (hg1 : 1 ≤ g)
    (hg2 : g ≤ (st.globalLines.length : Int)) :
    (navigateToLine st g c).success = true := by
  unfold navigateToLine
  rw [if_neg hne, if_neg (by push_neg; constructor <;> omega)]

theorem navigateToLine_content (st : TabState) (g : Int) (c : Nat)
    (hne : st.globalLines.length ≠ 0) (hg1 : 1 ≤ g)
    (hg2 : g ≤ (st.globalLines.length : Int)) :
    (navigateToLine st g c).content = List.intercalate ['\n']
      ((List.range' ((g - 1).toNat - c)
        (min (st.globalLines.length - 1) ((g - 1).toNat + c) + 1 - ((g - 1).toNat - c))).map
        (renderLine st.globalLines (g - 1).toNat)) := by
  unfold navigateToLine
  rw [if_neg hne, if_neg (by push_neg; constructor <;> omega)]

theorem navigateToLine_lineInfo_suffix (st : TabState) (g : Int) (c : Nat)
    (hne : st.globalLines.length ≠ 0) (hg1 : 1 ≤ g)
    (hg2 : g ≤ (st.globalLines.length : Int)) :
    List.IsSuffix (spanInfoFor (involvedSpansFor st.spanToGlobalLineMap
        ((g - 1).toNat - c) (min (st.globalLines.length - 1) ((g - 1).toNat + c))))
      (navigateToLine st g c).lineInfo := by
  unfold navigateToLine
  rw [if_neg hne, if_neg (by push_neg; constructor <;> omega)]
  exact ⟨_, rfl⟩

theorem involvedSpansFor_nil_of_beyond (mp : List SpanRange) (s e : Nat)
    (h : ∀ k, k < mp.length → (mp.getD k ⟨0, 0⟩).endLine < s + 1) :
    involvedSpansFor mp s e = [] := by
  unfold involvedSpansFor
  rw [List.filter_eq_nil_iff]
  intro k hk
  have hk' := List.mem_range.mp hk
  have := h k hk'
  simp only [decide_eq_true_eq, not_and]
  intro _
  push_neg
  omega

/-- Claim C10: when the final pending span is whitespace-only it is
dropped: the last recorded `endLine` may fall short of the line count,
the trailing lines belong to no recorded range and are all whitespace,
and `navigateToLine` into that tail succeeds while reporting span
information unavailable. -/
theorem c10_trailing_whitespace_dropped (B : Int) (snapshot : List Char)
    (hB : 100 ≤ B) : c10Statement B snapshot := by
  have hB' : B ≠ -1 := by omega
  obtain ⟨hmain, hle, htrail⟩ := splitSnapshotIntoSpans_ok B snapshot hB'
  have hlen0 : (splitLines snapshot).length ≠ 0 := by
    have h := splitLines_ne_nil snapshot
    intro hc
    exact h (List.length_eq_zero.mp hc)
  refine ⟨hle, ?_, trailing_lines_ws B snapshot hB', ?_⟩
  · intro k hk
    have hm : (splitSnapshotIntoSpans B snapshot).lineMap ≠ [] := by
      intro h0
      rw [h0] at hk
      simp at hk
    exact ((hmain hm).2.2.2.1 k hk).2.2.1
  · intro g c hg1 hg2
    have hG1 : 1 ≤ g := by omega
    have hstne : (stateAfterSplit B snapshot).globalLines.length ≠ 0 := hlen0
    have hstg2 : g ≤ ((stateAfterSplit B snapshot).globalLines.length : Int) := hg2
    refine ⟨navigateToLine_success _ g c hstne hG1 hstg2, ?_⟩
    have hsuf := navigateToLine_lineInfo_suffix (stateAfterSplit B snapshot) g c
      hstne hG1 hstg2
    have hinv : involvedSpansFor (stateAfterSplit B snapshot).spanToGlobalLineMap
        ((g - 1).toNat - c)
        (min ((stateAfterSplit B snapshot).globalLines.length - 1) ((g - 1).toNat + c)) = [] := by
      apply involvedSpansFor_nil_of_beyond
      intro k hk
      have hmapeq : (stateAfterSplit B snapshot).spanToGlobalLineMap =
          (splitSnapshotIntoSpans B snapshot).lineMap := rfl
      rw [hmapeq] at hk ⊢
      have hm : (splitSnapshotIntoSpans B snapshot).lineMap ≠ [] := by
        intro h0
        rw [h0] at hk
        simp at hk
      have hend := ((hmain hm).2.2.2.1 k hk).2.2.1
      have : (mget (splitSnapshotIntoSpans B snapshot).lineMap k).endLine ≤
          lastEnd (splitSnapshotIntoSpans B snapshot).lineMap := hend
      unfold mget at this
      omega
    rw [hinv] at hsuf
    exact hsuf

/-- Witness for C10 at the concrete dropped-tail text: the last recorded
line is 1 while the text has 2 lines, and line 2 is reachable but
unattributed to any span. -/
theorem c10_trailing_whitespace_dropped_witness :
    lastEnd (splitSnapshotIntoSpans 100 exampleDropText).lineMap = 1 ∧
    (splitLines exampleDropText).length = 2 ∧
    ((100 : Int) ≤ 100 ∧ c10Statement 100 exampleDropText) :=
  ⟨by decide, by decide,
    ⟨by decide, c10_trailing_whitespace_dropped 100 exampleDropText (by decide)⟩⟩

theorem navigateToLine_success_iff (st : TabState) (g : Int) (c : Nat) :
    (navigateToLine st g c).success = true ↔
      (st.globalLines.length ≠ 0 ∧ 1 ≤ g ∧ g ≤ (st.globalLines.length : Int)) := by
  unfold navigateToLine
  by_cases h0 : st.globalLines.length = 0
  · rw [if_pos h0]
    simp [h0]
  · rw [if_neg h0]
    by_cases h1 : g - 1 < 0 ∨ (st.globalLines.length : Int) ≤ g - 1
    · rw [if_pos h1]
      dsimp only
      simp only [Bool.false_eq_true, false_iff]
      rintro ⟨-, hg1, hg2⟩
      rcases h1 with h | h <;> omega
    · rw [if_neg h1]
      dsimp only
      simp only [true_iff]
      push_neg at h1
      exact ⟨h0, by omega, by omega⟩

theorem range'_shift_map {α : Type} (f : Nat → α) (s n : Nat) :
    (List.range' (s + 1) n).map f = (List.range' s n).map (fun i => f (i + 1)) := by
  rw [show s + 1 = 1 + s by omega, ← List.map_add_range']
  rw [List.map_map]
  apply List.map_congr_left
  intro a _
  simp [Nat.add_comm]

theorem content_eq_specRender (lines : List (List Char)) (g : Int) (c : Nat)
    (_hne : lines.length ≠ 0) (hg1 : 1 ≤ g) (hg2 : g ≤ (lines.length : Int)) :
    List.intercalate ['\n']
      ((List.range' ((g - 1).toNat - c)
        (min (lines.length - 1) ((g - 1).toNat + c) + 1 - ((g - 1).toNat - c))).map
        (renderLine lines (g - 1).toNat)) =
    specRenderWindow lines (max 1 (g.toNat - c)) (min lines.length (g.toNat + c))
      g.toNat := by
  unfold specRenderWindow
  congr 1
  have ha : max 1 (g.toNat - c) = ((g - 1).toNat - c) + 1 := by omega
  have hb : min lines.length (g.toNat + c) =
      min (lines.length - 1) ((g - 1).toNat + c) + 1 := by omega
  rw [ha, hb]
  rw [show min (lines.length - 1) ((g - 1).toNat + c) + 1 + 1 - (((g - 1).toNat - c) + 1)
      = min (lines.length - 1) ((g - 1).toNat + c) + 1 - ((g - 1).toNat - c) by omega]
  rw [range'_shift_map]
  apply List.map_congr_left
  intro i _
  unfold renderLine
  have hgt : (i = (g - 1).toNat) ↔ (i + 1 = g.toNat) := by omega
  by_cases hc2 : i = (g - 1).toNat
  · rw [if_pos hc2, if_pos (hgt.mp hc2)]
    simp
  · rw [if_neg hc2, if_neg (fun hh => hc2 (hgt.mpr hh))]
    simp

/-- Claim C6: `navigateToLine` fails exactly when no snapshot exists or
the line is out of `[1, totalLineCount]`, with distinct messages for the
two failure cases (in particular line 0 and line `lineCount + 1` fail);
on success the rendered window is the inclusive 1-based range
`[max(1, g − c), min(total, g + c)]` with the target line marked. -/
theorem c6_navigateToLine_range (st : TabState) : c6Statement st := by
  refine ⟨?_, ?_, ?_, ?_, ?_⟩
  · intro g c
    rw [← Bool.not_eq_true, navigateToLine_success_iff]
    constructor
    · intro h
      by_cases h0 : st.globalLines.length = 0
      · exact Or.inl h0
      · by_cases hg : g < 1
        · exact Or.inr (Or.inl hg)
        · refine Or.inr (Or.inr ?_)
          by_contra hh
          push_neg at hh
          exact h ⟨h0, by omega, by omega⟩
    · rintro (h0 | hg | hl) ⟨hne, hg1, hg2⟩
      · exact hne h0
      · omega
      · omega
  · intro c
    constructor
    · rw [← Bool.not_eq_true, navigateToLine_success_iff]
      rintro ⟨-, hg1, -⟩
      omega
    · rw [← Bool.not_eq_true, navigateToLine_success_iff]
      rintro ⟨-, -, hg2⟩
      omega
  · intro g c h0
    unfold navigateToLine
    rw [if_pos h0]
  · intro g c hne hr
    unfold navigateToLine
    rw [if_neg hne, if_pos (hr.imp (fun h => by omega) (fun h => by omega))]
    refine ⟨rfl, ?_⟩
    intro h
    rw [show ("Line ".data : List Char) = 'L' :: "ine ".data from rfl,
      show ("No snapshot available. Take a snapshot first.".data : List Char) =
        'N' :: "o snapshot available. Take a snapshot first.".data from rfl] at h
    simp at h
  · intro g c hg1 hg2
    have hne : st.globalLines.length ≠ 0 := by
      intro h0
      rw [h0] at hg2
      simp at hg2
      omega
    refine ⟨navigateToLine_success st g c hne hg1 hg2, ?_⟩
    rw [navigateToLine_content st g c hne hg1 hg2]
    exact content_eq_specRender st.globalLines g c hne hg1 hg2

/-- Witness for C6 at a concrete four-line state. -/
theorem c6_navigateToLine_range_witness :
    c6Statement (stateAfterSplit 100 "one\ntwo\nthree\nfour".data) :=
  c6_navigateToLine_range (stateAfterSplit 100 "one\ntwo\nthree\nfour".data)

theorem navigateToSpan_success_iff (t : TabState) (i : Int) :
    ((navigateToSpan t i).2.success = false ↔ t.snapshotSpans.length = 0) := by
  unfold navigateToSpan
  by_cases h0 : t.snapshotSpans.length = 0
  · rw [if_pos h0]
    simpa using h0
  · rw [if_neg h0]
    simpa using h0

/-- Claim C7: all five span-navigation operations clamp the requested
index into `[0, spanCount − 1]` and fail only when there are zero spans;
`navigateToSpan (-5)` lands on span 0, and next/prev at the last/first
span are idempotent no-ops returning the boundary span with success. -/
theorem c7_span_navigation_clamps (st : TabState) : c7Statement st := by
  refine ⟨fun i => navigateToSpan_success_iff st i,
    ⟨navigateToSpan_success_iff st 0, navigateToSpan_success_iff st _,
      navigateToSpan_success_iff st _, navigateToSpan_success_iff st _⟩,
    ?_, ?_, ?_, ?_⟩
  · intro i h0
    have h1 : (0 : Int) < (st.snapshotSpans.length : Int) := by
      exact_mod_cast Nat.pos_of_ne_zero h0
    unfold navigateToSpan
    rw [if_neg h0]
    dsimp only
    refine ⟨rfl, le_max_left 0 _, ?_, rfl, rfl, rfl⟩
    exact max_lt h1 (lt_of_le_of_lt (min_le_right _ _) (by omega))
  · intro h0
    have h1 : (0 : Int) < (st.snapshotSpans.length : Int) := by
      exact_mod_cast Nat.pos_of_ne_zero h0
    unfold navigateToSpan
    rw [if_neg h0]
    dsimp only
    omega
  · intro h0 hcur
    have h1 : (0 : Int) < (st.snapshotSpans.length : Int) := by
      exact_mod_cast Nat.pos_of_ne_zero h0
    unfold navigateToNextSpan navigateToSpan
    rw [if_neg h0]
    dsimp only
    have hcl : max 0 (min (st.currentSpanIndex + 1) ((st.snapshotSpans.length : Int) - 1))
        = st.currentSpanIndex := by
      rw [hcur]
      omega
    refine ⟨?_, rfl, ?_⟩
    · rw [hcl]
    · rw [hcl, hcur]
  · intro h0 hcur
    have h1 : (0 : Int) < (st.snapshotSpans.length : Int) := by
      exact_mod_cast Nat.pos_of_ne_zero h0
    unfold navigateToPrevSpan navigateToSpan
    rw [if_neg h0]
    dsimp only
    have hcl : max 0 (min (st.currentSpanIndex - 1) ((st.snapshotSpans.length : Int) - 1))
        = st.currentSpanIndex := by
      rw [hcur]
      omega
    refine ⟨?_, rfl, ?_⟩
    · rw [hcl]
    · rw [hcl, hcur]

/-- Witness for C7 at a concrete one-span state. -/
theorem c7_span_navigation_clamps_witness :
    c7Statement (stateAfterSplit 100 "ab".data) :=
  c7_span_navigation_clamps (stateAfterSplit 100 "ab".data)

theorem onlyCurrentSpanChanged_iff (ns os : List (List Char)) (cursor : Int) :
    onlyCurrentSpanChanged ns os cursor = true ↔
      ∀ i : Nat, i < ns.length → (i : Int) ≠ cursor → ns.getD i [] = os.getD i [] := by
  unfold onlyCurrentSpanChanged
  rw [List.all_eq_true]
  constructor
  · intro h i hi hne
    have h2 := h i (List.mem_range.mpr hi)
    simp only [Bool.or_eq_true, beq_iff_eq] at h2
    rcases h2 with h3 | h3
    · exact absurd h3 hne
    · exact h3
  · intro h x hx
    have hx' := List.mem_range.mp hx
    simp only [Bool.or_eq_true, beq_iff_eq]
    by_cases hc : (x : Int) = cursor
    · exact Or.inl hc
    · exact Or.inr (h x hx' hc)

theorem captureSnapshotUpdate_spans (st : TabState) (newText : List Char)
    (hdiff : st.fullSnapshot ≠ newText) :
    (captureSnapshotUpdate st newText).snapshotSpans =
      (splitSnapshotIntoSpans st.snapshotSpanSize newText).spans := by
  unfold captureSnapshotUpdate
  rw [if_neg hdiff]

theorem captureSnapshotUpdate_cursor (st : TabState) (newText : List Char)
    (hdiff : st.fullSnapshot ≠ newText) :
    (captureSnapshotUpdate st newText).currentSpanIndex =
      min (if st.snapshotSpans.length = 0 then 0
        else if (splitSnapshotIntoSpans st.snapshotSpanSize newText).spans.length =
            st.snapshotSpans.length ∧
            st.currentSpanIndex <
              ((splitSnapshotIntoSpans st.snapshotSpanSize newText).spans.length : Int) then
          if onlyCurrentSpanChanged
              (splitSnapshotIntoSpans st.snapshotSpanSize newText).spans
              st.snapshotSpans st.currentSpanIndex then st.currentSpanIndex
          else 0
        else 0)
      (((splitSnapshotIntoSpans st.snapshotSpanSize newText).spans.length : Int) - 1) := by
  unfold captureSnapshotUpdate
  rw [if_neg hdiff]

/-- Claim C2: when a changed raw snapshot is captured, the cursor lands at
0 if there were no previous spans; with equal span counts, the old cursor
in bounds and all non-cursor spans textually identical it is preserved;
in every other case it resets to 0; and it always ends up clamped inside
`[0, spanCount − 1]`. -/
theorem c2_cursor_reconciliation (st : TabState) (newText : List Char)
    (hdiff : st.fullSnapshot ≠ newText) (hcur0 : 0 ≤ st.currentSpanIndex) :
    c2Statement st newText := by
  have hspans := splitSpans_ne_nil st.snapshotSpanSize newText
  have hpos : 0 < (splitSnapshotIntoSpans st.snapshotSpanSize newText).spans.length :=
    List.length_pos.mpr hspans
  have hposI : (0 : Int) <
      ((splitSnapshotIntoSpans st.snapshotSpanSize newText).spans.length : Int) := by
    exact_mod_cast hpos
  refine ⟨?_, ?_, ?_, ?_⟩
  · intro hemp
    rw [captureSnapshotUpdate_cursor st newText hdiff]
    rw [if_pos (show st.snapshotSpans.length = 0 by rw [hemp]; rfl)]
    omega
  · intro hne hlen hbound hall
    rw [captureSnapshotUpdate_cursor st newText hdiff]
    rw [captureSnapshotUpdate_spans st newText hdiff] at hlen hall
    have h0 : ¬ st.snapshotSpans.length = 0 := fun h => hne (List.length_eq_zero.mp h)
    rw [if_neg h0]
    rw [if_pos (show _ ∧ _ from ⟨hlen, by omega⟩)]
    have honly : onlyCurrentSpanChanged
        (splitSnapshotIntoSpans st.snapshotSpanSize newText).spans
        st.snapshotSpans st.currentSpanIndex = true := by
      rw [onlyCurrentSpanChanged_iff]
      intro i hi hne2
      exact hall i (by omega) hne2
    rw [if_pos honly]
    omega
  · intro hne hnot
    rw [captureSnapshotUpdate_cursor st newText hdiff]
    rw [captureSnapshotUpdate_spans st newText hdiff] at hnot
    have h0 : ¬ st.snapshotSpans.length = 0 := fun h => hne (List.length_eq_zero.mp h)
    rw [if_neg h0]
    by_cases hc1 : (splitSnapshotIntoSpans st.snapshotSpanSize newText).spans.length =
        st.snapshotSpans.length ∧
        st.currentSpanIndex <
          ((splitSnapshotIntoSpans st.snapshotSpanSize newText).spans.length : Int)
    · rw [if_pos hc1]
      have hnall : ¬ ∀ i : Nat, i <
          (splitSnapshotIntoSpans st.snapshotSpanSize newText).spans.length →
          (i : Int) ≠ st.currentSpanIndex →
          (splitSnapshotIntoSpans st.snapshotSpanSize newText).spans.getD i [] =
            st.snapshotSpans.getD i [] := by
        intro hall
        refine hnot ⟨hc1.1, by omega, ?_⟩
        intro i hi hne2
        exact hall i (by omega) hne2
      rw [if_neg (fun hb => hnall ((onlyCurrentSpanChanged_iff _ _ _).mp hb))]
      omega
    · rw [if_neg hc1]
      omega
  · rw [captureSnapshotUpdate_cursor st newText hdiff,
      captureSnapshotUpdate_spans st newText hdiff]
    have hidx : (0 : Int) ≤ (if st.snapshotSpans.length = 0 then 0
        else if (splitSnapshotIntoSpans st.snapshotSpanSize newText).spans.length =
            st.snapshotSpans.length ∧
            st.currentSpanIndex <
              ((splitSnapshotIntoSpans st.snapshotSpanSize newText).spans.length : Int) then
          if onlyCurrentSpanChanged
              (splitSnapshotIntoSpans st.snapshotSpanSize newText).spans
              st.snapshotSpans st.currentSpanIndex then st.currentSpanIndex
          else 0
        else 0) := by
      split
      · omega
      · split
        · split
          · exact hcur0
          · omega
        · omega
    constructor
    · omega
    · omega

/-- Witness for C2 at a concrete state and changed snapshot text. -/
theorem c2_cursor_reconciliation_witness :
    (stateAfterSplit 100 "ab".data).fullSnapshot ≠ "cd".data ∧
    0 ≤ (stateAfterSplit 100 "ab".data).currentSpanIndex ∧
    c2Statement (stateAfterSplit 100 "ab".data) "cd".data :=
  ⟨by decide, by decide,
    c2_cursor_reconciliation (stateAfterSplit 100 "ab".data) "cd".data
      (by decide) (by decide)⟩

theorem count_filter_ne {M : Type} [DecidableEq M] (q : List M) (m x : M)
    (hx : x ≠ m) : (q.filter (fun y => y ≠ m)).count x = q.count x := by
  induction q with
  | nil => rfl
  | cons a q ih =>
    by_cases ha : a = m
    · subst ha
      rw [List.filter_cons_of_neg (by simp)]
      rw [List.count_cons, ih]
      have h1 : ¬ (x == a) := by simpa using hx
      have h2 : a ≠ x := fun h => hx h.symm
      simp [h1, h2]
    · rw [List.filter_cons_of_pos (by simpa using ha)]
      rw [List.count_cons, List.count_cons, ih]

/-- Claim C9: `setModalState` appends at the tail leaving prior entries at
their positions, `clearModalState` removes exactly the given entry (an
order-preserving sublist remains, occurrence counts of all other entries
are unchanged), and the race returns the oldest entry when the queue is
non-empty at call time. -/
theorem c9_modal_queue_order (M : Type) [DecidableEq M] : c9Statement M := by
  refine ⟨?_, ?_, ?_⟩
  · intro q m
    refine ⟨by simp [setModalState], ?_, ?_⟩
    · unfold setModalState
      exact List.take_left q [m]
    · unfold setModalState
      exact List.getLast?_concat q
  · intro q m
    refine ⟨List.filter_sublist _, ?_, ?_⟩
    · intro hmem
      unfold clearModalState at hmem
      simp [List.mem_filter] at hmem
    · intro x hx
      unfold clearModalState
      exact count_filter_ne q m x hx
  · intro q outcome h
    unfold raceAgainstModalStates
    rw [if_pos (List.length_pos.mpr h)]
    exact List.head?_eq_head h

/-- Witness for C9 at a concrete entry type. -/
theorem c9_modal_queue_order_witness : c9Statement Nat :=
  c9_modal_queue_order Nat

/-- Claim C3, code bug: `searchInSnapshot` compiles the pattern with the
default flags `'gi'` and reuses the same RegExp object for every line, so
its `lastIndex` persists across `test` calls.  In the single span
`"aa\na"`, line 2 (`"a"`) matches the pattern (the matcher finds a hit
when started at position 0) yet is reported as non-matching, because the
previous successful test on line 1 left `lastIndex = 1`: the search
returns only the line-1 match instead of one match per matching line. -/
theorem c3_global_flag_skips_matching_line :
    matchCharFrom 'a' "a".data 0 = some 1 ∧
    searchInSnapshot ⟨matchCharFrom 'a', true⟩ (stateAfterSplit (-1) "aa\na".data) =
      ([0], [⟨0, "aa".data, 1, 1⟩]) :=
  ⟨by decide, by decide⟩

theorem count_trimEnd_joinLines (B : Int) (ls : List (List Char))
    (h : ∀ l ∈ ls, '\n' ∉ l) (hne : ls ≠ []) :
    (trimEnd (joinLines B ls)).count '\n' + 1 ≤ ls.length := by
  rcases List.eq_nil_or_concat ls with h0 | ⟨ls0, lst, h0⟩
  · exact absurd h0 hne
  subst h0
  rw [List.concat_eq_append] at h ⊢
  obtain ⟨w, hw, hwn⟩ := lineToAdd_decomp B lst (h lst (by simp))
  rw [joinLines_append]
  have hsingle : joinLines B [lst] = lineToAdd B lst := by simp [joinLines]
  rw [hsingle, hw, ← List.append_assoc, trimEnd_append_ws _ '\n' (by decide)]
  have h1 := count_trimEnd_le (joinLines B ls0 ++ w) '\n'
  rw [List.count_append] at h1
  have h2 : w.count '\n' = 0 := List.count_eq_zero.mpr hwn
  have h3 : (joinLines B ls0).count '\n' = ls0.length :=
    count_newline_joinLines B ls0 (fun l hl => h l (by simp [hl]))
  rw [h2, h3] at h1
  simp only [List.length_append, List.length_singleton]
  omega

theorem splitLines_spanCover_le (B : Int) (L : List (List Char))
    (hL : ∀ l ∈ L, '\n' ∉ l) (sr : SpanRange) (h1 : 1 ≤ sr.startLine)
    (h2 : sr.startLine ≤ sr.endLine) (h3 : sr.endLine ≤ L.length) :
    (splitLines (spanCover B L sr)).length ≤ sr.endLine - sr.startLine + 1 := by
  unfold spanCover
  rw [splitLines_length]
  have hlen : (slice L (sr.startLine - 1) sr.endLine).length =
      sr.endLine - (sr.startLine - 1) := length_slice L h3
  have hsub : ∀ l ∈ slice L (sr.startLine - 1) sr.endLine, '\n' ∉ l :=
    fun l hl => hL l (mem_slice hl)
  have hne : slice L (sr.startLine - 1) sr.endLine ≠ [] := by
    intro h0
    rw [h0] at hlen
    simp at hlen
    omega
  have hcount := count_trimEnd_joinLines B _ hsub hne
  rw [hlen] at hcount
  omega

theorem get?_eq_some_mget (m : List SpanRange) {k : Nat} (hk : k < m.length) :
    m.get? k = some (mget m k) := by
  rw [List.get?_eq_getElem?, List.getElem?_eq_getElem hk]
  unfold mget
  rw [List.getD_eq_getElem m _ hk]

theorem searchLines_matches (r : JSRegex) (si : Nat) (ro : Option SpanRange) :
    ∀ (lines : List (List Char)) (li lineIndex : Nat) (hm : Bool)
      (acc : List SearchMatch),
      ∀ m ∈ (searchLines r si ro lines li lineIndex hm acc).2.2,
        m ∈ acc ∨ (m.spanIndex = si ∧ ∃ idx : Nat, lineIndex ≤ idx ∧
          idx < lineIndex + lines.length ∧
          ((∃ sr, ro = some sr ∧ m.globalLineNumber = sr.startLine + idx) ∨
            (ro = none ∧ m.globalLineNumber = idx + 1))) := by
  intro lines
  induction lines with
  | nil =>
    intro li lineIndex hm acc m hmem
    exact Or.inl hmem
  | cons line rest ih =>
    intro li lineIndex hm acc m hmem
    simp only [searchLines] at hmem
    split at hmem
    · have h2 := ih _ _ _ _ m hmem
      rcases h2 with h2 | ⟨hsi, idx, hidx1, hidx2, hg⟩
      · rcases List.mem_append.mp h2 with h3 | h3
        · exact Or.inl h3
        · rw [List.mem_singleton] at h3
          subst h3
          refine Or.inr ⟨rfl, lineIndex, le_refl _, by simp, ?_⟩
          rcases ro with _ | sr
          · exact Or.inr ⟨rfl, rfl⟩
          · exact Or.inl ⟨sr, rfl, rfl⟩
      · exact Or.inr ⟨hsi, idx, by omega, by simp [List.length_cons]; omega, hg⟩
    · have h2 := ih _ _ _ _ m hmem
      rcases h2 with h2 | ⟨hsi, idx, hidx1, hidx2, hg⟩
      · exact Or.inl h2
      · exact Or.inr ⟨hsi, idx, by omega, by simp [List.length_cons]; omega, hg⟩

theorem searchSpans_matches (r : JSRegex) (lineMap : List SpanRange) :
    ∀ (spans : List (List Char)) (si0 li : Nat) (inds : List Nat)
      (acc : List SearchMatch),
      ∀ m ∈ (searchSpans r lineMap spans si0 li inds acc).2,
        m ∈ acc ∨ ∃ j : Nat, j < spans.length ∧ m.spanIndex = si0 + j ∧
          ∃ idx : Nat, idx < (splitLines (spans.getD j [])).length ∧
          ((∃ sr, lineMap.get? (si0 + j) = some sr ∧
              m.globalLineNumber = sr.startLine + idx) ∨
            (lineMap.get? (si0 + j) = none ∧ m.globalLineNumber = idx + 1)) := by
  intro spans
  induction spans with
  | nil =>
    intro si0 li inds acc m hmem
    exact Or.inl hmem
  | cons span rest ih =>
    intro si0 li inds acc m hmem
    simp only [searchSpans] at hmem
    have h2 := ih (si0 + 1) _ _ _ m hmem
    rcases h2 with h2 | ⟨j, hj, hsi, idx, hidx, hg⟩
    · have h3 := searchLines_matches r si0 (lineMap.get? si0) (splitLines span)
        li 0 false acc m h2
      rcases h3 with h3 | ⟨hsi, idx, _, hlt, hg⟩
      · exact Or.inl h3
      · refine Or.inr ⟨0, by simp, by simpa using hsi, idx, ?_, ?_⟩
        · simpa using hlt
        · simpa using hg
    · refine Or.inr ⟨j + 1, by simpa using Nat.succ_lt_succ hj, by omega, idx, ?_, ?_⟩
      · simpa [List.getD_cons_succ] using hidx
      · rw [show si0 + (j + 1) = si0 + 1 + j by omega]
        exact hg

theorem splitSnapshotIntoSpans_shape (B : Int) (snapshot : List Char) (hB : B ≠ -1) :
    (splitSnapshotIntoSpans B snapshot).spans.length =
      (splitSnapshotIntoSpans B snapshot).lineMap.length ∨
    ((splitSnapshotIntoSpans B snapshot).spans = [[]] ∧
      (splitSnapshotIntoSpans B snapshot).lineMap = []) := by
  have hok := splitLoop_initial_ok B snapshot
  simp only [splitSnapshotIntoSpans, if_neg hB]
  split
  · exact Or.inl hok.1
  · rename_i hnot
    have h2 : (splitLoop B (splitLines snapshot).length (splitLines snapshot)
        0 [] 0 0 [] []).2 = [] := by
      rw [← List.length_eq_zero, ← hok.1]
      omega
    exact Or.inr ⟨rfl, h2⟩

/-- Claim C8: every match returned by `searchInSnapshot` on a freshly
split, unchanged snapshot carries a global line number inside
`[1, totalLineCount]`; `navigateToLine` at that number succeeds and
renders the window around exactly that target line. -/
theorem c8_search_line_navigable (B : Int) (snapshot : List Char) (r : JSRegex)
    (c : Nat) (hB : 100 ≤ B ∨ B = -1) : c8Statement B snapshot r c := by
  intro m hmem
  have hL1 : 0 < (splitLines snapshot).length :=
    List.length_pos.mpr (splitLines_ne_nil snapshot)
  have hchar := searchSpans_matches r (stateAfterSplit B snapshot).spanToGlobalLineMap
    (stateAfterSplit B snapshot).snapshotSpans 0 0 [] [] m hmem
  rw [show (stateAfterSplit B snapshot).spanToGlobalLineMap =
      (splitSnapshotIntoSpans B snapshot).lineMap from rfl,
    show (stateAfterSplit B snapshot).snapshotSpans =
      (splitSnapshotIntoSpans B snapshot).spans from rfl] at hchar
  have hbound : 1 ≤ m.globalLineNumber ∧
      m.globalLineNumber ≤ (splitLines snapshot).length := by
    rcases hchar with h | ⟨j, hj, hsi, idx, hidx, hg⟩
    · simp at h
    simp only [Nat.zero_add] at hg
    rcases hB with hB100 | hBm1
    · have hB' : B ≠ -1 := by omega
      rcases splitSnapshotIntoSpans_shape B snapshot hB' with hsh | ⟨hsp, hmp⟩
      · have hjm : j < (splitSnapshotIntoSpans B snapshot).lineMap.length := by omega
        have hm_ne : (splitSnapshotIntoSpans B snapshot).lineMap ≠ [] := by
          intro h0
          rw [h0] at hjm
          simp at hjm
        obtain ⟨hmain, hle, -⟩ := splitSnapshotIntoSpans_ok B snapshot hB'
        obtain ⟨-, -, -, hper, hle2, -⟩ := hmain hm_ne
        obtain ⟨hp1, hp2, hp3, hp4⟩ := hper j hjm
        rcases hg with ⟨sr, hsome, hG⟩ | ⟨hnone, -⟩
        · rw [get?_eq_some_mget _ hjm, Option.some.injEq] at hsome
          subst hsome
          rw [show (splitSnapshotIntoSpans B snapshot).spans.getD j [] =
              sget (splitSnapshotIntoSpans B snapshot).spans j from rfl, hp4] at hidx
          have hsl := splitLines_spanCover_le B (splitLines snapshot)
            (splitLines_no_newline snapshot) _ hp1 hp2 (by omega)
          constructor
          · omega
          · omega
        · rw [get?_eq_some_mget _ hjm] at hnone
          exact absurd hnone (by simp)
      · rw [hmp] at hg
        rw [hsp] at hj hidx
        have hj0 : j = 0 := by simpa using hj
        subst hj0
        rcases hg with ⟨sr, hsome, -⟩ | ⟨-, hG⟩
        · exact absurd hsome (by simp)
        · have hidx0 : idx = 0 := by
            simp only [List.getD_cons_zero] at hidx
            have : (splitLines ([] : List Char)).length = 1 := rfl
            omega
          subst hidx0
          rw [hG]
          omega
    · rw [show splitSnapshotIntoSpans B snapshot =
          ⟨[snapshot], [⟨1, (splitLines snapshot).length⟩]⟩ from by
        simp [splitSnapshotIntoSpans, hBm1]] at hj hidx hg
      have hj0 : j = 0 := by simpa using hj
      subst hj0
      rcases hg with ⟨sr, hsome, hG⟩ | ⟨hnone, -⟩
      · have hsr : sr = ⟨1, (splitLines snapshot).length⟩ := by
          simpa using hsome.symm
        subst hsr
        simp only [List.getD_cons_zero] at hidx
        rw [hG,
          show (⟨1, (splitLines snapshot).length⟩ : SpanRange).startLine = 1 from rfl]
        constructor
        · omega
        · omega
      · exact absurd hnone (by simp)
  obtain ⟨hg1, hg2⟩ := hbound
  have hg1' : (1 : Int) ≤ (m.globalLineNumber : Int) := by exact_mod_cast hg1
  have hg2' : ((m.globalLineNumber : Int)) ≤ ((splitLines snapshot).length : Int) := by
    exact_mod_cast hg2
  have hne : (stateAfterSplit B snapshot).globalLines.length ≠ 0 := by
    show (splitLines snapshot).length ≠ 0
    omega
  refine ⟨hg1, hg2, navigateToLine_success _ _ c hne hg1' hg2', ?_⟩
  rw [navigateToLine_content _ _ c hne hg1' hg2']
  rw [show (stateAfterSplit B snapshot).globalLines = splitLines snapshot from rfl]
  rw [content_eq_specRender (splitLines snapshot) (m.globalLineNumber : Int) c
    (by omega) hg1' hg2']
  simp

/-- Witness for C8 at a concrete snapshot, pattern and context width. -/
theorem c8_search_line_navigable_witness :
    ((100 : Int) ≤ 100 ∨ (100 : Int) = -1) ∧
    c8Statement 100 "aa\na".data ⟨matchCharFrom 'a', true⟩ 1 :=
  ⟨by decide,
    c8_search_line_navigable 100 "aa\na".data ⟨matchCharFrom 'a', true⟩ 1 (by decide)⟩

end TabModel
